import Mathlib

/-!
Verification development for the vector/matrix algebra and the iterative
affine-transform driver of the repository (file main.py).

The Python classes Vector and Matrix subclass list; here a Vector payload is
a `List α` and a Matrix is its list of column Vectors (column-major storage,
as in the source).  Python floats are modelled as elements of a commutative
ring (the claims under study are exact algebraic identities); the rotation
matrix uses the real numbers.  Fallible operations return `Except String`:
every `raise` in the source becomes an `.error`, including the IndexError
raised by `Matrix.rows` on an empty matrix and the errors raised by
`scalar_prod` inside the multiplication loops (modelled by the explicit
column-length checks placed before the loop, which hold exactly when no
inner access or inner compatibility guard fails).
-/

namespace BG

/-- Payload of a Python Vector (a list of scalars). -/
abbrev Vec (α : Type) := List α

/-- A Python Matrix: list of column Vectors (column-major, as in the source). -/
abbrev Mat (α : Type) := List (Vec α)

/-- Message of the TypeError raised by Vector._ensure_compatibility. -/
def dimMsg : String := "Can not add vectors of different length"

/-- Message of the TypeError raised by Matrix._ensure_multiplicable on a size mismatch. -/
def mulDimMsg : String := "Number of columns in left operand of multiplication must be equal to number of rows in right operand"

/-- Message of the TypeError raised for an operand that is neither Matrix nor Vector. -/
def typeMsg : String := "other must be Matrix of Vector"

/-- Stands for the IndexError Python raises on an out-of-range list access. -/
def indexMsg : String := "IndexError"

variable {α : Type}

/-- The raw sum of elementwise products, as computed by the body of
Vector.scalar_prod: sum(x1 * x2 for x1, x2 in zip(self, other)). -/
def dotSum [Mul α] [Add α] [Zero α] (a b : Vec α) : α :=
  (List.zipWith (fun x y => x * y) a b).sum

/-- The right-hand operand of a binary Vector operation, as Python sees it:
a Vector, some other iterable of scalars (e.g. a plain list), or a
non-iterable object. -/
inductive VOperand (α : Type) where
  | vec (xs : Vec α)
  | plainList (xs : Vec α)
  | nonIterable
  deriving DecidableEq

/-- Vector.__add__.  The guard Vector._ensure_compatibility raises only when
the operand IS a Vector of different length; for a non-Vector operand it
returns NotImplemented, a value the caller discards, so the body runs:
zip truncates to the shorter length for an iterable operand and raises a
TypeError for a non-iterable one. -/
def vaddOp [Add α] (a : Vec α) (b : VOperand α) : Except String (Vec α) :=
  match b with
  | .vec ys =>
      if a.length = ys.length then .ok (List.zipWith (fun x y => x + y) a ys)
      else .error dimMsg
  | .plainList ys => .ok (List.zipWith (fun x y => x + y) a ys)
  | .nonIterable => .error indexMsg

/-- Vector.__sub__, with the same guard behaviour as Vector.__add__. -/
def vsubOp [Sub α] (a : Vec α) (b : VOperand α) : Except String (Vec α) :=
  match b with
  | .vec ys =>
      if a.length = ys.length then .ok (List.zipWith (fun x y => x - y) a ys)
      else .error dimMsg
  | .plainList ys => .ok (List.zipWith (fun x y => x - y) a ys)
  | .nonIterable => .error indexMsg

/-- Vector.scalar_prod, with the same guard behaviour as Vector.__add__. -/
def vdotOp [Mul α] [Add α] [Zero α] (a : Vec α) (b : VOperand α) : Except String α :=
  match b with
  | .vec ys => if a.length = ys.length then .ok (dotSum a ys) else .error dimMsg
  | .plainList ys => .ok (dotSum a ys)
  | .nonIterable => .error indexMsg

/-- Vector.__add__ restricted to a Vector right operand. -/
def vadd [Add α] (a b : Vec α) : Except String (Vec α) := vaddOp a (.vec b)

/-- Vector.__sub__ restricted to a Vector right operand. -/
def vsub [Sub α] (a b : Vec α) : Except String (Vec α) := vsubOp a (.vec b)

/-- Vector.scalar_prod restricted to a Vector right operand. -/
def vdot [Mul α] [Add α] [Zero α] (a b : Vec α) : Except String α := vdotOp a (.vec b)

/-- Matrix.rows reads len(self[0]); on a nonempty matrix this is the length
of the first column (on an empty one Python raises, handled at use sites). -/
def mrows (m : Mat α) : Nat := (m.headD []).length

/-- Result of Matrix.__mul__: either a Matrix or, after the single-column
collapse, a bare Vector. -/
inductive MulResult (α : Type) where
  | vec (v : Vec α)
  | mat (m : Mat α)
  deriving DecidableEq

/-- The collapse at the end of Matrix.__mul__: a product with exactly one
column is returned as that column (a bare Vector), otherwise as a Matrix. -/
def collapseCols (m : Mat α) : MulResult α :=
  match m with
  | [c] => .vec c
  | _ => .mat m

/-- The matrix of the Matrix * Matrix branch of Matrix.__mul__ before the
collapse: column k of the product is the vector of dot products of the rows
of A (row i assembled by reading element i of each column of A) with column
k of B. -/
def rawMul [Mul α] [Add α] [Zero α] (A B : Mat α) : Mat α :=
  B.map (fun bk =>
    (List.range (mrows A)).map (fun i =>
      dotSum (A.map (fun c => c.getD i 0)) bk))

/-- The Matrix * Vector branch of Matrix.__mul__.  In source order: the
_ensure_multiplicable guard, then self.rows (IndexError on an empty matrix),
then the row-assembly loop (IndexError when some column is shorter than the
first, which is what the A.all check captures). -/
def mmulV [Mul α] [Add α] [Zero α] (A : Mat α) (v : Vec α) : Except String (Vec α) :=
  if A.length ≠ v.length then .error mulDimMsg
  else if A.length = 0 then .error indexMsg
  else if ¬ (A.all (fun c => mrows A ≤ c.length)) then .error indexMsg
  else .ok ((List.range (mrows A)).map (fun i =>
    dotSum (A.map (fun c => c.getD i 0)) v))

/-- The Matrix * Matrix branch of Matrix.__mul__.  In source order:
other.rows inside the guard (IndexError on an empty right operand), the
_ensure_multiplicable guard, self.rows (IndexError on an empty left
operand), the row-assembly accesses (IndexError when some column of A is
shorter than the first), the compatibility guard inside the inner
scalar_prod calls (which fails exactly when some column of B has length
other than A.cols), and finally the single-column collapse. -/
def mmulM [Mul α] [Add α] [Zero α] (A B : Mat α) : Except String (MulResult α) :=
  if B.length = 0 then .error indexMsg
  else if A.length ≠ mrows B then .error mulDimMsg
  else if A.length = 0 then .error indexMsg
  else if ¬ (A.all (fun c => mrows A ≤ c.length)) then .error indexMsg
  else if ¬ (B.all (fun c => c.length = A.length)) then .error dimMsg
  else .ok (collapseCols (rawMul A B))

/-- The left operand of Matrix.__rmul__: a Vector, or anything else. -/
inductive ROperand (α : Type) where
  | vec (xs : Vec α)
  | notVector
  deriving DecidableEq

/-- Matrix.__rmul__ (other * self): a non-Vector left operand raises;
a Vector is wrapped as Matrix(other for _ in range(1)) — a matrix with the
single column `other` — and multiplied by self via Matrix.__mul__. -/
def rmul [Mul α] [Add α] [Zero α] (other : ROperand α) (self : Mat α) :
    Except String (MulResult α) :=
  match other with
  | .notVector => .error typeMsg
  | .vec v => mmulM [v] self

/-- Matrix.identity: column i has 1 at position i and 0 elsewhere. -/
def identity [Zero α] [One α] (n : Nat) : Mat α :=
  (List.range n).map (fun i =>
    (List.range n).map (fun j => if j = i then (1 : α) else 0))

/-- create_rotation_matrix: columns (cos a, sin a) and (-sin a, cos a).
Noncomputable only because real cos and sin are; the structure is literal. -/
noncomputable def create_rotation_matrix (angle : ℝ) : Mat ℝ :=
  [[Real.cos angle, Real.sin angle], [-Real.sin angle, Real.cos angle]]

/-- convert(v, m, dv) = m * v + dv, on Vector payload values. -/
def convert [Mul α] [Add α] [Zero α] (v : Vec α) (m : Mat α) (dv : Vec α) :
    Except String (Vec α) :=
  match mmulV m v with
  | .error e => .error e
  | .ok mv => vadd mv dv

/-- Boolean success test on an Except value. -/
def okB {β : Type} (e : Except String β) : Bool :=
  match e with
  | .ok _ => true
  | .error _ => false

/-! ### Heap model for the frame claim

Python Vectors are mutable heap objects.  To state that convert mutates
none of its arguments and returns a fresh object, vector payloads live in a
store (address = position); Vector(...) constructor calls allocate at the
end of the store, and reading dereferences.  convert builds m * v (a fresh
Vector, per the Matrix.__mul__ branch above) and then the sum with dv
(again a fresh Vector, per Vector.__add__). -/

/-- A heap of Vector payloads; an address is a position in the list. -/
abbrev Store (α : Type) := List (Vec α)

/-- Allocation of a fresh Vector object at the end of the store. -/
def alloc (s : Store α) (xs : Vec α) : Store α × Nat :=
  (s ++ [xs], s.length)

/-- Dereference an address. -/
def readV (s : Store α) (a : Nat) : Vec α := List.getD s a []

/-- Matrix.__mul__ with a Vector operand, at the heap level: the columns of
the matrix and the vector are read, the product is computed, and the result
Vector is freshly constructed. -/
def mulMVRef [Mul α] [Add α] [Zero α] (s : Store α) (mc : List Nat) (va : Nat) :
    Except String (Store α × Nat) :=
  match mmulV (mc.map (readV s)) (readV s va) with
  | .error e => .error e
  | .ok r => .ok (alloc s r)

/-- Vector.__add__ at the heap level: both operands are read and the sum
Vector is freshly constructed. -/
def addRef [Add α] (s : Store α) (aa ba : Nat) : Except String (Store α × Nat) :=
  match vadd (readV s aa) (readV s ba) with
  | .error e => .error e
  | .ok r => .ok (alloc s r)

/-- convert at the heap level: m * v followed by + dv. -/
def convertRef [Mul α] [Add α] [Zero α] (s : Store α) (va : Nat) (mc : List Nat)
    (dva : Nat) : Except String (Store α × Nat) :=
  match mulMVRef s mc va with
  | .error e => .error e
  | .ok (s1, t) => addRef s1 t dva

/-! ### The driver loop on the point set

In main(), with TOTAL_STEPS = 8 and dots a list of 8 points, each step
`step` of `for step in range(1, TOTAL_STEPS)` runs
`for i in range(step, TOTAL_STEPS): dots[i] = convert(dots[i], m, dv)`.
The loop treats the transform as an opaque function on points, so it is
modelled generically in the point type and the per-point update. -/

/-- dots[i] = f(dots[i]): update position i of the list (in the run every
index hit is in range). -/
def applyAt (f : α → α) : List α → Nat → List α
  | [], _ => []
  | x :: xs, 0 => f x :: xs
  | x :: xs, n + 1 => x :: applyAt f xs n

/-- The inner loop of one step: for i in range(step, TOTAL_STEPS). -/
def stepDots (f : α → α) (ds : List α) (step total : Nat) : List α :=
  (List.range' step (total - step)).foldl (fun acc i => applyAt f acc i) ds

/-- The whole run on the point set: for step in range(1, TOTAL_STEPS). -/
def runDots (f : α → α) (ds : List α) (total : Nat) : List α :=
  (List.range' 1 (total - 1)).foldl (fun acc stp => stepDots f acc stp total) ds

/-- Decidable equality on Except values, used to evaluate the embedding on
concrete inputs. -/
instance exceptDecEq {ε β : Type} [DecidableEq ε] [DecidableEq β] :
    DecidableEq (Except ε β) := fun x y =>
  match x, y with
  | .ok a, .ok b =>
      if h : a = b then isTrue (by rw [h])
      else isFalse (fun hh => h (by injection hh))
  | .error a, .error b =>
      if h : a = b then isTrue (by rw [h])
      else isFalse (fun hh => h (by injection hh))
  | .ok _, .error _ => isFalse (fun hh => Except.noConfusion hh)
  | .error _, .ok _ => isFalse (fun hh => Except.noConfusion hh)

/-! ### Helper lemmas -/

theorem getD_map_range {β : Type} (g : Nat → β) (d : β) {i n : Nat} (hi : i < n) :
    ((List.range n).map g).getD i d = g i := by
  simp [List.getD_eq_getElem?_getD, List.getElem?_range hi]

theorem map_range_getD {β : Type} (f : α → β) (d : α) (v : List α) :
    (List.range v.length).map (fun i => f (v.getD i d)) = v.map f := by
  induction v with
  | nil => simp
  | cons x xs ih =>
      simp only [List.length_cons, List.range_succ_eq_map, List.map_cons,
        List.getD_cons_zero, List.map_map]
      refine congrArg (f x :: ·) ?_
      have hc : ((fun i => f ((x :: xs).getD i d)) ∘ Nat.succ)
          = (fun i => f (xs.getD i d)) := by
        funext k
        simp [Function.comp]
      rw [hc, ih]

theorem map_range_getD_id (d : α) (v : List α) :
    (List.range v.length).map (fun i => v.getD i d) = v := by
  simpa using map_range_getD id d v

theorem dotSum_map_zero [CommRing α] {β : Type} (l : List β) (v : Vec α) :
    dotSum (l.map (fun _ => (0 : α))) v = 0 := by
  induction l generalizing v with
  | nil => simp [dotSum]
  | cons x xs ih =>
      cases v with
      | nil => simp [dotSum]
      | cons y ys => simpa [dotSum] using ih ys

theorem dotSum_unit [CommRing α] (v : Vec α) (i : Nat) (hi : i < v.length) :
    dotSum ((List.range v.length).map (fun k => if i = k then (1 : α) else 0)) v
      = v.getD i 0 := by
  induction v generalizing i with
  | nil => simp at hi
  | cons x xs ih =>
      simp only [List.length_cons, List.range_succ_eq_map, List.map_cons, List.map_map]
      cases i with
      | zero =>
          have hz : (List.range xs.length).map
              ((fun k => if 0 = k then (1 : α) else 0) ∘ Nat.succ)
              = (List.range xs.length).map (fun _ => (0 : α)) := by
            refine List.map_congr_left ?_
            intro k _
            simp [Function.comp]
          simp only [if_pos rfl, hz]
          simpa [dotSum] using dotSum_map_zero (List.range xs.length) xs
      | succ j =>
          have hj : j < xs.length := Nat.lt_of_succ_lt_succ hi
          have hs : (List.range xs.length).map
              ((fun k => if j + 1 = k then (1 : α) else 0) ∘ Nat.succ)
              = (List.range xs.length).map (fun k => if j = k then (1 : α) else 0) := by
            refine List.map_congr_left ?_
            intro k _
            simp [Function.comp, Nat.succ_inj]
          simp only [hs]
          have : ((if j + 1 = 0 then (1 : α) else 0)) = 0 := by simp
          simpa [dotSum, this] using ih j hj

theorem identity_length [Zero α] [One α] (n : Nat) :
    (identity n : Mat α).length = n := by simp [identity]

theorem identity_col_mem [Zero α] [One α] {n : Nat} :
    ∀ c ∈ (identity n : Mat α), c.length = n := by
  intro c hc
  simp only [identity, List.mem_map, List.mem_range] at hc
  obtain ⟨i, _, rfl⟩ := hc
  simp

theorem identity_mrows [Zero α] [One α] {n : Nat} (hn : 0 < n) :
    mrows (identity n : Mat α) = n := by
  cases n with
  | zero => exact absurd hn (by simp)
  | succ m => simp [identity, mrows, List.range_succ_eq_map]

theorem identity_row [CommRing α] {n i : Nat} (hi : i < n) :
    (identity n : Mat α).map (fun c => c.getD i 0)
      = (List.range n).map (fun k => if i = k then (1 : α) else 0) := by
  simp only [identity, List.map_map]
  refine List.map_congr_left ?_
  intro k _
  simp only [Function.comp]
  rw [getD_map_range _ _ hi]

theorem collapseCols_singleton (c : Vec α) : collapseCols [c] = .vec c := rfl

theorem collapseCols_ne_one {m : Mat α} (h : m.length ≠ 1) :
    collapseCols m = .mat m := by
  match m with
  | [] => rfl
  | [c] => exact absurd rfl h
  | a :: b :: t => rfl

theorem mmulV_ok [CommRing α] {A : Mat α} {v : Vec α}
    (hdim : A.length = v.length) (hA : A.length ≠ 0)
    (hrag : ∀ c ∈ A, mrows A ≤ c.length) :
    mmulV A v = .ok ((List.range (mrows A)).map (fun i =>
      dotSum (A.map (fun c => c.getD i 0)) v)) := by
  have h1 : ¬ ∃ x ∈ A, x.length < mrows A := by
    push_neg
    exact hrag
  have hv : ¬ v = [] := by
    intro hnil
    rw [hnil] at hdim
    exact hA hdim
  simp [mmulV, hdim, hA, h1, hv]

theorem mmulM_ok [CommRing α] {A B : Mat α}
    (hB : B.length ≠ 0) (hdim : A.length = mrows B) (hA : A.length ≠ 0)
    (hragA : ∀ c ∈ A, mrows A ≤ c.length)
    (hragB : ∀ c ∈ B, c.length = A.length) :
    mmulM A B = .ok (collapseCols (rawMul A B)) := by
  have hA' : mrows B ≠ 0 := by
    rw [← hdim]
    exact hA
  have h1 : ¬ ∃ x ∈ A, x.length < mrows A := by
    push_neg
    exact hragA
  have h2 : ¬ ∃ x ∈ B, ¬ x.length = mrows B := by
    push_neg
    intro x hx
    rw [hragB x hx]
    exact hdim
  simp [mmulM, hB, hdim, hA, hA', h1, h2]

theorem rawMul_identity [CommRing α] {n : Nat} {B : Mat α} (hn : 0 < n)
    (hB : ∀ c ∈ B, c.length = n) :
    rawMul (identity n : Mat α) B = B := by
  unfold rawMul
  rw [identity_mrows hn]
  nth_rewrite 2 [show B = B.map id from (List.map_id B).symm]
  refine List.map_congr_left ?_
  intro bk hbk
  have hlen : bk.length = n := hB bk hbk
  have hcols : ∀ i ∈ List.range n,
      dotSum ((identity n : Mat α).map (fun c => c.getD i 0)) bk = bk.getD i 0 := by
    intro i hi
    rw [List.mem_range] at hi
    rw [identity_row hi, ← hlen]
    exact dotSum_unit bk i (by rw [hlen]; exact hi)
  rw [List.map_congr_left hcols, ← hlen, map_range_getD_id]
  rfl

theorem mrows_of_cols {M : Mat α} {n : Nat} (hM : M.length ≠ 0)
    (hcols : ∀ c ∈ M, c.length = n) : mrows M = n := by
  cases M with
  | nil => exact absurd rfl hM
  | cons c t => exact hcols c (List.mem_cons_self c t)

theorem identity_row_dot [CommRing α] {n i : Nat} (hi : i < n) (v : Vec α)
    (hlen : v.length = n) :
    dotSum ((identity n : Mat α).map (fun c => c.getD i 0)) v = v.getD i 0 := by
  rw [identity_row hi, ← hlen]
  exact dotSum_unit v i (by rw [hlen]; exact hi)

/-! ### Claims -/

/-- C7: for all Vectors a and b of unequal size, each of add, subtract and
dot raises the dimension-mismatch error coming from the compatibility guard
at the start of the operation; the result is the guard error itself,
independent of the elements of either operand. -/
theorem c7_unequal_vectors_fail [CommRing α] (a b : Vec α)
    (h : a.length ≠ b.length) :
    vadd a b = .error dimMsg ∧ vsub a b = .error dimMsg ∧
      vdot a b = .error dimMsg := by
  refine ⟨?_, ?_, ?_⟩ <;> simp [vadd, vsub, vdot, vaddOp, vsubOp, vdotOp, h]

/-- Witness for C7 at a = [1], b = []. -/
theorem c7_unequal_vectors_fail_witness :
    vadd [(1 : ℤ)] [] = .error dimMsg ∧ vsub [(1 : ℤ)] [] = .error dimMsg ∧
      vdot [(1 : ℤ)] [] = .error dimMsg :=
  c7_unequal_vectors_fail [(1 : ℤ)] [] (by decide)

/-- C8: for all Vectors a and b of equal size n, add returns a Vector of
size n whose i-th element is a[i] + b[i]. -/
theorem c8_add_elementwise [CommRing α] (a b : Vec α)
    (h : a.length = b.length) :
    ∃ c, vadd a b = .ok c ∧ c.length = a.length ∧
      ∀ i, i < a.length → c.getD i 0 = a.getD i 0 + b.getD i 0 := by
  refine ⟨List.zipWith (fun x y => x + y) a b, by simp [vadd, vaddOp, h], ?_, ?_⟩
  · simp [List.length_zipWith, h]
  · intro i hi
    have hib : i < b.length := h ▸ hi
    have hiz : i < (List.zipWith (fun x y => x + y) a b).length := by
      simp [List.length_zipWith, h]
      omega
    rw [List.getD_eq_getElem?_getD, List.getElem?_eq_getElem hiz,
      List.getD_eq_getElem?_getD, List.getElem?_eq_getElem hi,
      List.getD_eq_getElem?_getD, List.getElem?_eq_getElem hib]
    simp [List.getElem_zipWith]

/-- Witness for C8 at a = [1, 2], b = [10, 20]. -/
theorem c8_add_elementwise_witness :
    ∃ c, vadd [(1 : ℤ), 2] [10, 20] = .ok c ∧
      c.length = ([(1 : ℤ), 2] : Vec ℤ).length ∧
      ∀ i, i < ([(1 : ℤ), 2] : Vec ℤ).length →
        c.getD i 0 = ([(1 : ℤ), 2] : Vec ℤ).getD i 0
          + ([(10 : ℤ), 20] : Vec ℤ).getD i 0 :=
  c8_add_elementwise [(1 : ℤ), 2] [10, 20] (by decide)

/-- C3 (code bug evidence): the compatibility guard returns NotImplemented
for a non-Vector operand and the caller discards that value, so add,
subtract and dot on a Vector of length 3 and a plain list of length 2 do
NOT fail: they silently zip-truncate to a length-2 result (50 is the
truncated dot product). -/
theorem c3_guard_bypassed_eval :
    vaddOp [(1 : ℤ), 2, 3] (VOperand.plainList [10, 20]) = .ok [11, 22] ∧
    vsubOp [(1 : ℤ), 2, 3] (VOperand.plainList [10, 20]) = .ok [-9, -18] ∧
    vdotOp [(1 : ℤ), 2, 3] (VOperand.plainList [10, 20]) = .ok 50 ∧
    ([11, 22] : Vec ℤ).length < ([(1 : ℤ), 2, 3] : Vec ℤ).length := by
  decide

/-- C2 (amended): buildRotation returns a 2x2 column-major Matrix whose
FIRST column is (cos angle, sin angle) and whose SECOND column is
(-sin angle, cos angle). -/
theorem c2_rotation_columns (angle : ℝ) :
    (create_rotation_matrix angle).length = 2 ∧
    (create_rotation_matrix angle).getD 0 [] = [Real.cos angle, Real.sin angle] ∧
    (create_rotation_matrix angle).getD 1 []
      = [-Real.sin angle, Real.cos angle] :=
  ⟨rfl, rfl, rfl⟩

/-- C2 counterexample: at angle pi/2 the first column of the built matrix
is (0, 1), not the (cos, -sin) = (0, -1) the claim asserts. -/
theorem c2_counterexample :
    (create_rotation_matrix (Real.pi / 2)).getD 0 []
      ≠ [Real.cos (Real.pi / 2), -Real.sin (Real.pi / 2)] := by
  simp [create_rotation_matrix, Real.sin_pi_div_two, Real.cos_pi_div_two]
  norm_num

/-- C5 (amended): in the staggered run with TOTAL_STEPS = 8 over 8 points,
point i is transformed exactly i times (the loop applies the step to the
suffix starting at the step counter, so point i receives the transform at
steps 1..i and the point with start index 0 is never transformed). -/
theorem c5_staggered_counts {β : Type} (f : β → β)
    (a0 a1 a2 a3 a4 a5 a6 a7 : β) :
    runDots f [a0, a1, a2, a3, a4, a5, a6, a7] 8 =
      [a0, f a1, f (f a2), f (f (f a3)), f (f (f (f a4))),
       f (f (f (f (f a5)))), f (f (f (f (f (f a6))))),
       f (f (f (f (f (f (f a7))))))] := by
  simp [runDots, stepDots, List.range', applyAt]

/-- C5 counterexample: instrumenting the transform as Nat.succ on points
that start at 0, point 0 ends the run transformed 0 times, not the
TOTAL_STEPS - 0 = 8 times the claim asserts. -/
theorem c5_counterexample :
    (runDots Nat.succ (List.replicate 8 0) 8).getD 0 0 ≠ Nat.succ^[8] 0 := by
  decide

/-- C1 counterexample: at n = 1 the single-column collapse makes
identity(1) * M a bare Vector, which is not equal to the 1x1 Matrix M. -/
theorem c1_counterexample :
    mmulM (identity 1) [[(5 : ℤ)]] ≠ .ok (.mat [[(5 : ℤ)]]) := by
  decide

/-- C1 (amended): for every n-by-n Matrix M, identity(n) * M returns the
Matrix M itself whenever n is at least 2; for n = 1 the single-column
collapse returns the single column of the product (elementwise equal to
the column of M) as a bare Vector instead. -/
theorem c1_identity_mul_matrix [CommRing α] (n : Nat) (M : Mat α)
    (hlen : M.length = n) (hcols : ∀ c ∈ M, c.length = n) :
    (2 ≤ n → mmulM (identity n) M = .ok (.mat M)) ∧
    (n = 1 → mmulM (identity n) M = .ok (.vec (M.headD []))) := by
  have main : 1 ≤ n → mmulM (identity n) M = .ok (collapseCols M) := by
    intro h1
    have hn : 0 < n := h1
    have hB : M.length ≠ 0 := by omega
    have hdim : (identity n : Mat α).length = mrows M := by
      rw [identity_length, mrows_of_cols hB hcols]
    have hA : (identity n : Mat α).length ≠ 0 := by
      rw [identity_length]
      omega
    have hragA : ∀ c ∈ (identity n : Mat α), mrows (identity n : Mat α) ≤ c.length := by
      intro c hc
      rw [identity_mrows hn, identity_col_mem c hc]
    have hragB : ∀ c ∈ M, c.length = (identity n : Mat α).length := by
      intro c hc
      rw [identity_length, hcols c hc]
    rw [mmulM_ok hB hdim hA hragA hragB, rawMul_identity hn hcols]
  constructor
  · intro h2
    rw [main (by omega), collapseCols_ne_one (by omega)]
  · intro h1
    subst h1
    obtain ⟨c, hc⟩ := List.length_eq_one.mp hlen
    subst hc
    rw [main le_rfl]
    rfl

/-- Witness for C1 at n = 2 and M = [[1, 2], [3, 4]]. -/
theorem c1_identity_mul_matrix_witness :
    mmulM (identity 2) [[(1 : ℤ), 2], [3, 4]]
      = .ok (.mat [[(1 : ℤ), 2], [3, 4]]) :=
  (c1_identity_mul_matrix 2 [[(1 : ℤ), 2], [3, 4]] (by decide)
    (by decide)).1 (by decide)

/-- C9 counterexample: for n = 0, identity(0) * (empty Vector) raises the
IndexError coming from Matrix.rows on an empty matrix, instead of
returning the vector. -/
theorem c9_counterexample :
    mmulV (identity 0) ([] : Vec ℤ) ≠ .ok [] := by
  decide

/-- C9 (amended): for every n of at least 1 and every Vector v of size n,
identity(n) * v returns v; at n = 0 the operation fails with an
IndexError. -/
theorem c9_identity_mul_vector [CommRing α] (n : Nat) (v : Vec α)
    (hlen : v.length = n) (hn : 1 ≤ n) :
    mmulV (identity n) v = .ok v := by
  have hn0 : 0 < n := hn
  have hdim : (identity n : Mat α).length = v.length := by
    rw [identity_length, hlen]
  have hA : (identity n : Mat α).length ≠ 0 := by
    rw [identity_length]
    omega
  have hrag : ∀ c ∈ (identity n : Mat α), mrows (identity n : Mat α) ≤ c.length := by
    intro c hc
    rw [identity_mrows hn0, identity_col_mem c hc]
  rw [mmulV_ok hdim hA hrag, identity_mrows hn0]
  have hdot : ∀ i ∈ List.range n,
      dotSum ((identity n : Mat α).map (fun c => c.getD i 0)) v = v.getD i 0 := by
    intro i hi
    exact identity_row_dot (List.mem_range.mp hi) v hlen
  rw [List.map_congr_left hdot, ← hlen, map_range_getD_id]

/-- Witness for C9 at n = 2 and v = [5, 7]. -/
theorem c9_identity_mul_vector_witness :
    mmulV (identity 2) [(5 : ℤ), 7] = .ok [(5 : ℤ), 7] :=
  c9_identity_mul_vector 2 [(5 : ℤ), 7] (by decide) (by decide)

/-- C6: whenever A * B succeeds, a product with exactly one column is
returned as that column, a bare Vector; a product with any other number of
columns is returned as a Matrix. -/
theorem c6_single_column_collapse [CommRing α] (A B : Mat α)
    (res : MulResult α) (h : mmulM A B = .ok res) :
    ((rawMul A B).length = 1 → res = .vec ((rawMul A B).headD [])) ∧
    ((rawMul A B).length ≠ 1 → res = .mat (rawMul A B)) := by
  have hres : res = collapseCols (rawMul A B) := by
    unfold mmulM at h
    split_ifs at h
    all_goals
      first
      | exact Except.noConfusion h
      | exact (Except.ok.inj h).symm
  constructor
  · intro h1
    obtain ⟨c, hc⟩ := List.length_eq_one.mp h1
    rw [hres, hc]
    rfl
  · intro h1
    rw [hres, collapseCols_ne_one h1]

/-- Witness for C6 with A a 1x2 matrix and B a 2x1 matrix: the one-column
product collapses to the bare Vector [11]. -/
theorem c6_single_column_collapse_witness :
    MulResult.vec [(11 : ℤ)]
      = .vec ((rawMul [[(1 : ℤ)], [2]] [[3, 4]]).headD []) :=
  (c6_single_column_collapse [[(1 : ℤ)], [2]] [[3, 4]] (.vec [11])
    (by decide)).1 (by decide)

/-- C4 counterexample: for v of size 2 and the 2x2 identity matrix the
claim asserts v * M is defined (2 = row count) and is the 1x2 row result;
the code instead fails, because it wraps v as a single-COLUMN 2x1 matrix
whose column count 1 does not match the row count 2. -/
theorem c4_counterexample :
    okB (rmul (ROperand.vec [(1 : ℤ), 2]) (identity 2)) = false := by
  decide

/-- C4 (amended): v * M rejects any non-Vector left operand, and for a
Vector v it wraps v as the single-column matrix Matrix([v]) (shape N x 1)
and delegates to the ordinary matrix-multiply path; hence it is defined
exactly when M has one row, in which case it yields the N x cols outer
product of v with the single row of M, collapsed to a bare Vector when M
also has exactly one column. -/
theorem c4_rmul_wraps_column [CommRing α] (v : Vec α) (M : Mat α) :
    rmul ROperand.notVector M = .error typeMsg ∧
    rmul (ROperand.vec v) M = mmulM [v] M ∧
    (M ≠ [] → (∀ c ∈ M, c.length = 1) →
      rmul (ROperand.vec v) M
        = .ok (collapseCols (M.map (fun c => v.map (fun x => x * c.getD 0 0))))) := by
  refine ⟨rfl, rfl, ?_⟩
  intro hM hcols
  show mmulM [v] M = _
  have hB : M.length ≠ 0 := fun h => hM (List.length_eq_zero.mp h)
  have hdim : ([v] : Mat α).length = mrows M := by
    rw [mrows_of_cols hB hcols]
    rfl
  have hA : ([v] : Mat α).length ≠ 0 := by simp
  have hragA : ∀ c ∈ ([v] : Mat α), mrows ([v] : Mat α) ≤ c.length := by
    intro c hc
    rw [List.mem_singleton.mp hc]
    exact le_rfl
  have hragB : ∀ c ∈ M, c.length = ([v] : Mat α).length := by
    intro c hc
    rw [hcols c hc]
    rfl
  rw [mmulM_ok hB hdim hA hragA hragB]
  refine congrArg (fun m => Except.ok (collapseCols m)) ?_
  unfold rawMul
  refine List.map_congr_left ?_
  intro bk hbk
  obtain ⟨b, hb⟩ := List.length_eq_one.mp (hcols bk hbk)
  subst hb
  have hrow : ∀ i ∈ List.range (mrows ([v] : Mat α)),
      dotSum (([v] : Mat α).map (fun c => c.getD i 0)) [b] = v.getD i 0 * b := by
    intro i _
    simp [dotSum]
  rw [List.map_congr_left hrow]
  show (List.range v.length).map (fun i => v.getD i 0 * b) = _
  rw [map_range_getD (fun x => x * b) 0 v]
  rfl

/-- Witness for C4 with v = [1, 2] and M = [[3]] (one row, one column):
the product collapses to the bare Vector [3, 6]. -/
theorem c4_rmul_wraps_column_witness :
    rmul (ROperand.vec [(1 : ℤ), 2]) [[3]]
      = .ok (collapseCols (([[(3 : ℤ)]] : Mat ℤ).map
          (fun c => ([(1 : ℤ), 2] : Vec ℤ).map (fun x => x * c.getD 0 0)))) :=
  (c4_rmul_wraps_column [(1 : ℤ), 2] [[3]]).2.2 (by decide) (by decide)

/-- C10: convert(v, m, dv) = m * v + dv, run on the heap of Vector objects,
leaves every preexisting Vector cell (in particular v, dv and every column
of m) unchanged, returns a freshly allocated address, and the fresh cell
holds exactly the value of the pure m * v + dv computation. -/
theorem c10_convert_frame [CommRing α] (s : Store α) (va dva : Nat)
    (mc : List Nat) (s' : Store α) (r : Nat) (hdva : dva < s.length)
    (h : convertRef s va mc dva = .ok (s', r)) :
    (∀ i, i < s.length → readV s' i = readV s i) ∧
    s.length ≤ r ∧
    convert (readV s va) (mc.map (readV s)) (readV s dva) = .ok (readV s' r) := by
  cases hmv : mmulV (mc.map (readV s)) (readV s va) with
  | error e =>
      have hc : convertRef s va mc dva = .error e := by
        simp only [convertRef, mulMVRef, hmv]
      rw [hc] at h
      exact Except.noConfusion h
  | ok mv =>
      have hread_t : readV (s ++ [mv]) s.length = mv := by
        simp only [readV]
        rw [List.getD_eq_getElem?_getD, List.getElem?_concat_length]
        rfl
      have hread_dv : readV (s ++ [mv]) dva = readV s dva := by
        simp only [readV]
        exact List.getD_append s [mv] [] dva hdva
      cases hvd : vadd mv (readV s dva) with
      | error e =>
          have hc : convertRef s va mc dva = .error e := by
            simp only [convertRef, mulMVRef, addRef, alloc, hmv, hread_t,
              hread_dv, hvd]
          rw [hc] at h
          exact Except.noConfusion h
      | ok w =>
          have hc : convertRef s va mc dva
              = .ok ((s ++ [mv]) ++ [w], (s ++ [mv]).length) := by
            simp only [convertRef, mulMVRef, addRef, alloc, hmv, hread_t,
              hread_dv, hvd]
          rw [hc] at h
          injection h with hpair
          injection hpair with hs hr
          subst hs
          subst hr
          refine ⟨?_, ?_, ?_⟩
          · intro i hi
            have hi1 : i < (s ++ [mv]).length := by
              rw [List.length_append]
              omega
            simp only [readV]
            rw [List.getD_append _ _ _ _ hi1, List.getD_append _ _ _ _ hi]
          · rw [List.length_append]
            omega
          · have hw : readV ((s ++ [mv]) ++ [w]) ((s ++ [mv]).length) = w := by
              simp only [readV]
              rw [List.getD_eq_getElem?_getD, List.getElem?_concat_length]
              rfl
            rw [hw]
            simp only [convert, hmv, hvd]

/-- Witness for C10 on a concrete 4-cell store: v at address 2, the matrix
columns at addresses 0 and 1, dv at address 3; the run appends the
intermediate product and the result, touching no existing cell. -/
theorem c10_convert_frame_witness :
    (∀ i, i < ([[(1 : ℤ), 0], [0, 1], [3, 4], [10, 20]] : Store ℤ).length →
      readV ([[(1 : ℤ), 0], [0, 1], [3, 4], [10, 20], [3, 4], [13, 24]] : Store ℤ) i
        = readV ([[(1 : ℤ), 0], [0, 1], [3, 4], [10, 20]] : Store ℤ) i) ∧
    ([[(1 : ℤ), 0], [0, 1], [3, 4], [10, 20]] : Store ℤ).length ≤ 5 ∧
    convert (readV ([[(1 : ℤ), 0], [0, 1], [3, 4], [10, 20]] : Store ℤ) 2)
        ([0, 1].map (readV ([[(1 : ℤ), 0], [0, 1], [3, 4], [10, 20]] : Store ℤ)))
        (readV ([[(1 : ℤ), 0], [0, 1], [3, 4], [10, 20]] : Store ℤ) 3)
      = .ok (readV ([[(1 : ℤ), 0], [0, 1], [3, 4], [10, 20], [3, 4], [13, 24]] : Store ℤ) 5) :=
  c10_convert_frame [[(1 : ℤ), 0], [0, 1], [3, 4], [10, 20]] 2 3 [0, 1]
    [[(1 : ℤ), 0], [0, 1], [3, 4], [10, 20], [3, 4], [13, 24]] 5
    (by decide) (by decide)

end BG
